import Mathlib

/-!
Verification of the Sarek code-analysis and persistent-memory subsystem.

The Python source is shallowly embedded: file contents are `List Char`
(`errors='ignore'` text decoding conflates bytes and text), SQLite tables are
lists of row structures manipulated with the same per-statement semantics as
the SQL in the source, and Python floats are modelled by `ℚ` (all values
arising here are exact small rationals).  External library facilities — the
CPython `ast` parser, the `re` regex engine and the `hashlib.md5` digest — are
modelled as explicit function parameters, since no claim depends on their
internals.
-/

namespace Sarek

/-- File contents / DB text values: a Python `str` as a list of characters. -/
abbrev Str := List Char

/-! ### Python string helpers (`str.strip`, `str.splitlines`, `str.lower`, `str.count`) -/

/-- Characters removed by Python `str.strip()` with no arguments. -/
def isPySpace (c : Char) : Bool :=
  [' ', '\t', '\n', '\x0d', '\x0c', '\x0b'].contains c

/-- Python `s.strip()`: drop whitespace from both ends. -/
def pyStrip (s : Str) : Str :=
  ((s.dropWhile isPySpace).reverse.dropWhile isPySpace).reverse

/-- Python `s.lower()` (per-character lowering; all needles here are ASCII). -/
def pyLower (s : Str) : Str := s.map Char.toLower

/-- Helper for `splitlines`: `cur` is the (reversed) line being accumulated. -/
def splitlinesAux (cur : Str) : Str → List Str
  | [] => if cur.isEmpty then [] else [cur.reverse]
  | '\n' :: rest => cur.reverse :: splitlinesAux [] rest
  | c :: rest => splitlinesAux (c :: cur) rest

/-- Python `s.splitlines()` restricted to the `\n` terminator:
`"" ↦ []`, `"a\nb" ↦ ["a","b"]`, `"a\nb\n" ↦ ["a","b"]`. -/
def splitlines (s : Str) : List Str := splitlinesAux [] s

/-- Python `hay.count(needle)` scan with explicit fuel (`fuel ≥ hay.length`
always holds at the call site, so the `0, _ :: _` case is unreachable);
the fuel makes the definition structurally recursive. -/
def pyCountF (needle : Str) : Nat → Str → Nat
  | _, [] => 0
  | 0, _ :: _ => 0
  | fuel + 1, c :: rest =>
    if needle.isPrefixOf (c :: rest) then
      1 + pyCountF needle fuel (rest.drop (needle.length - 1))
    else
      pyCountF needle fuel rest

/-- Python `hay.count(needle)`: number of non-overlapping occurrences. -/
def pyCount (needle hay : Str) : Nat := pyCountF needle hay.length hay

/-! ### Data model (`sarek/core/data_models.py`) -/

/-- The `CodeAnalysis` dataclass.  `complexity_score` is a Python float; every
value produced by the analyzer is an exact small rational, so it is modelled
by `ℚ`.  `security_issues` is `Optional` in the dataclass but every
constructor call in the source passes a list. -/
structure CodeAnalysis where
  file_path : Str
  language : Str
  lines_of_code : Nat
  complexity_score : ℚ
  functions : List Str
  classes : List Str
  imports : List Str
  issues : List Str
  security_issues : List Str
deriving DecidableEq, Repr

/-! ### Python AST (`ast` standard-library module, used by `analyze_python_file`)

Only the constructors `analyze_python_file` discriminates on are
distinguished; every other node kind is `other`.  Each node carries the list
of its child nodes (`ast.iter_child_nodes`); the several child fields of a
real node (body / orelse / handlers / …) are concatenated into that one list,
which is all `ast.walk` observes.  `ast.walk` documents its traversal order
as unspecified ("in no specified order"), so it is embedded as a structurally
recursive depth-first preorder traversal. -/

inductive PyNode where
  | functionDef (name : Str) (body : List PyNode)
  | classDef (name : Str) (body : List PyNode)
  | importStmt (names : List Str)
  | importFrom (module : Str) (names : List Str)
  | ifStmt (body : List PyNode)
  | forStmt (body : List PyNode)
  | whileStmt (body : List PyNode)
  | tryStmt (body : List PyNode)
  | withStmt (body : List PyNode)
  | other (body : List PyNode)

mutual

/-- Embeds `ast.walk(node)`: the node itself followed by all of its descendants. -/
def walk : PyNode → List PyNode
  | .functionDef nm b => .functionDef nm b :: walkList b
  | .classDef nm b => .classDef nm b :: walkList b
  | .importStmt ns => [.importStmt ns]
  | .importFrom m ns => [.importFrom m ns]
  | .ifStmt b => .ifStmt b :: walkList b
  | .forStmt b => .forStmt b :: walkList b
  | .whileStmt b => .whileStmt b :: walkList b
  | .tryStmt b => .tryStmt b :: walkList b
  | .withStmt b => .withStmt b :: walkList b
  | .other b => .other b :: walkList b

/-- Walk each node of a list in turn. -/
def walkList : List PyNode → List PyNode
  | [] => []
  | n :: r => walk n ++ walkList r

end

/-- Embeds `isinstance(n, (ast.If, ast.For, ast.While, ast.Try, ast.With))`:
the decision-point node kinds counted toward complexity. -/
def isDecision : PyNode → Bool
  | .ifStmt _ | .forStmt _ | .whileStmt _ | .tryStmt _ | .withStmt _ => true
  | _ => false

/-- Embeds `isinstance(n, ast.FunctionDef)`. -/
def isFunctionDef : PyNode → Bool
  | .functionDef _ _ => true
  | _ => false

/-- Embeds `sum(1 for n in ast.walk(node) if isinstance(n, (If, For, While, Try, With)))`. -/
def countDecisions (n : PyNode) : Nat := ((walk n).filter isDecision).length

/-- Accumulator of the `for node in ast.walk(tree)` loop in
`analyze_python_file` (lines 72–92 of `code_analyzer.py`). -/
structure PyAcc where
  functions : List Str
  classes : List Str
  imports : List Str
  complexity : Nat
deriving DecidableEq, Repr

/-- One iteration of the `for node in ast.walk(tree)` loop. -/
def pyStep (acc : PyAcc) (node : PyNode) : PyAcc :=
  match node with
  | .functionDef name _ =>
    { acc with functions := acc.functions ++ [name],
               complexity := acc.complexity + countDecisions node }
  | .classDef name _ => { acc with classes := acc.classes ++ [name] }
  | .importStmt names => { acc with imports := acc.imports ++ names }
  | .importFrom m names =>
    { acc with imports := acc.imports ++ names.map (fun a => m ++ '.' :: a) }
  | _ => acc

/-- The whole loop: functions, classes, imports and raw complexity. -/
def pyCollect (tree : PyNode) : PyAcc :=
  (walk tree).foldl pyStep ⟨[], [], [], 0⟩

/-! ### Quality-issue strings (`analyze_python_file` / `analyze_generic_file`) -/

def highFunctionIssue : Str := "🔴 High function count - consider splitting into modules".data

def largeFileIssue : Str := "🟡 Large file - consider refactoring".data

def highComplexityIssue : Str := "🔴 High complexity - simplify conditional logic".data

def manyClassesIssue : Str := "🟡 Many classes - consider design patterns".data

def todoIssue : Str := "📝 Contains TODO/FIXME comments".data

def bareExceptIssue : Str := "⚠️ Bare except clauses - specify exception types".data

def printIssue : Str := "🟡 Print statements found - consider using logging".data

/-- The quality-issue checks of `analyze_python_file` (lines 111–127), in
source order; `content.lower()` is `pyLower content` and Python's substring
`in` is list infix. -/
def pyIssues (nfunctions loc : Nat) (score : ℚ) (nclasses : Nat) (content : Str) :
    List Str :=
  (if 25 < nfunctions then [highFunctionIssue] else [])
  ++ (if 1000 < loc then [largeFileIssue] else [])
  ++ (if 8 < score then [highComplexityIssue] else [])
  ++ (if 10 < nclasses then [manyClassesIssue] else [])
  ++ (if "todo".data <:+: pyLower content ∨ "fixme".data <:+: pyLower content
      then [todoIssue] else [])
  ++ (if 0 < pyCount "except:".data content then [bareExceptIssue] else [])
  ++ (if "print(".data <:+: content ∧ ¬ "debug".data <:+: pyLower content
      then [printIssue] else [])

/-! ### `analyze_python_file` (`code_analyzer.py` lines 39–139)

The CPython parser is an external facility: the parse outcome
(`ast.parse(content)` succeeding with a tree or raising `SyntaxError e`) is
passed in as an `Except` value.  The six-pattern `re.IGNORECASE` security
scan (lines 94–105) is likewise passed in as an opaque `secScan` function —
no claim depends on its output.  The file-read-error branch (lines 41–55) is
unreachable here because the caller model only invokes the analyzer after the
same file was already read successfully for hashing.

`complexity_score` is Python float division `complexity / max(len(functions), 1)`;
both operands are small naturals, so it is the exact rational
`mkRat complexity (max len 1)`. -/
def analyze_python_file (secScan : Str → List Str) (file_path content : Str)
    (parsed : Except Str PyNode) : CodeAnalysis :=
  match parsed with
  | .error e =>
    { file_path := file_path
      language := "python".data
      lines_of_code := (splitlines content).length
      complexity_score := 0
      functions := []
      classes := []
      imports := []
      issues := ["Syntax Error: ".data ++ e]
      security_issues := [] }
  | .ok tree =>
    let acc := pyCollect tree
    let security_issues := secScan content
    let lines_of_code := ((splitlines content).filter
      (fun l => match pyStrip l with
                | [] => false
                | c :: _ => c != '#')).length
    let complexity_score : ℚ := mkRat acc.complexity (max acc.functions.length 1)
    let issues := pyIssues acc.functions.length lines_of_code complexity_score
      acc.classes.length content
    { file_path := file_path
      language := "python".data
      lines_of_code := lines_of_code
      complexity_score := complexity_score
      functions := acc.functions
      classes := acc.classes
      imports := acc.imports
      issues := issues
      security_issues := security_issues }

/-! ### `analyze_generic_file` (`code_analyzer.py` lines 141–218) -/

/-- The per-language `re.findall` / `re.search` pattern tables of
`analyze_generic_file` (lines 168–201), modelled as opaque extraction
functions over the content; no claim depends on their output.
`jsFunctions` stands for the three concatenated `findall` results of lines
169–171. -/
structure PatternOracles where
  jsFunctions : Str → List Str
  jsClasses : Str → List Str
  jsImports : Str → List Str
  jsSecurity : Str → List Str
  phpFunctions : Str → List Str
  phpClasses : Str → List Str
  phpSecurity : Str → List Str

/-- The quality-issue checks of `analyze_generic_file` (lines 203–206):
a large-file warning over the non-blank line count and the **case-sensitive**
`content.count('TODO') + content.count('FIXME') > 0` test. -/
def genericIssues (loc : Nat) (content : Str) : List Str :=
  (if 500 < loc then [largeFileIssue] else [])
  ++ (if 0 < pyCount "TODO".data content + pyCount "FIXME".data content
      then [todoIssue] else [])

/-- Embeds `analyze_generic_file`.  As with the Python analyzer, the read-error
branch (lines 143–157) is unreachable in the caller model.  Note the
TODO/FIXME test here is the case-sensitive
`content.count('TODO') + content.count('FIXME') > 0` (line 205), unlike the
lower-cased test on the Python path. -/
def analyze_generic_file (po : PatternOracles) (file_path content language : Str) :
    CodeAnalysis :=
  let lines := splitlines content
  let lines_of_code := (lines.filter (fun l => !(pyStrip l).isEmpty)).length
  let fci :=
    if language == "javascript".data then
      (po.jsFunctions content, po.jsClasses content, po.jsImports content,
       po.jsSecurity content)
    else if language == "php".data then
      (po.phpFunctions content, po.phpClasses content, ([] : List Str),
       po.phpSecurity content)
    else ([], [], [], [])
  let issues := genericIssues lines_of_code content
  { file_path := file_path
    language := language
    lines_of_code := lines_of_code
    complexity_score := 0
    functions := fci.1
    classes := fci.2.1
    imports := fci.2.2.1
    issues := issues
    security_issues := fci.2.2.2 }

/-- Trivial instantiation of the regex oracles, used to evaluate the
analyzers on concrete inputs in witnesses and counterexamples (the oracles
are never consulted outside the javascript/php branches). -/
def emptyOracles : PatternOracles where
  jsFunctions := fun _ => []
  jsClasses := fun _ => []
  jsImports := fun _ => []
  jsSecurity := fun _ => []
  phpFunctions := fun _ => []
  phpClasses := fun _ => []
  phpSecurity := fun _ => []

/-! ### Extension table and dispatch (`constants.py`, `analyze_file_with_progress`) -/

/-- The `SUPPORTED_EXTENSIONS` table from `constants.py`. -/
def SUPPORTED_EXTENSIONS : List (Str × Str) :=
  [(".py".data, "python".data),
   (".js".data, "javascript".data),
   (".jsx".data, "javascript".data),
   (".ts".data, "typescript".data),
   (".tsx".data, "typescript".data),
   (".php".data, "php".data),
   (".java".data, "java".data),
   (".cpp".data, "cpp".data),
   (".c".data, "c".data),
   (".go".data, "go".data),
   (".rs".data, "rust".data),
   (".rb".data, "ruby".data),
   (".sh".data, "bash".data),
   (".sql".data, "sql".data)]

/-- Embeds `self.supported_extensions.get(ext, 'unknown')` (line 256).  `ext` is the
already lower-cased `Path(file_path).suffix` (suffix extraction itself is a
standard-library facility, so the suffix is taken as an input). -/
def classify (ext : Str) : Str :=
  (List.lookup ext SUPPORTED_EXTENSIONS).getD "unknown".data

/-- The extractor dispatch of `analyze_file_with_progress` (lines 255–261):
Python files go to the structured analyzer, everything else (including
`unknown`) to the generic analyzer. -/
def extract (secScan : Str → List Str) (po : PatternOracles)
    (parse : Str → Except Str PyNode) (file_path content ext : Str) : CodeAnalysis :=
  let language := classify ext
  if language == "python".data then
    analyze_python_file secScan file_path content (parse content)
  else
    analyze_generic_file po file_path content language

/-! ### Analysis cache (`code_analysis` table, `database.py` lines 40–51,
`analyze_file_with_progress`, `code_analyzer.py` lines 220–283) -/

/-- A row of the `code_analysis` table (`file_path` is declared `UNIQUE`).
The `analysis_data` column holds `json.dumps(analysis.__dict__)`; the JSON
round-trip on this record of strings, numbers and string lists is faithful,
so the column is modelled by the `CodeAnalysis` value itself (the autoindexed
`id` column is never read and is omitted). -/
structure CacheRow where
  file_path : Str
  file_hash : Str
  language : Str
  lines_of_code : Nat
  complexity_score : ℚ
  analysis_data : CodeAnalysis
deriving DecidableEq, Repr

abbrev CacheTable := List CacheRow

/-- Embeds `SELECT analysis_data FROM code_analysis WHERE file_path = ? AND file_hash = ?`
followed by `CodeAnalysis(**json.loads(row[0]))` (lines 239–249). -/
def cacheSelect (tbl : CacheTable) (path h : Str) : Option CodeAnalysis :=
  (tbl.find? (fun r => r.file_path == path && r.file_hash == h)).map (·.analysis_data)

/-- Embeds `INSERT OR REPLACE INTO code_analysis …` (lines 268–275): the UNIQUE
constraint on `file_path` makes this delete any row with the same path and
insert the new one. -/
def cacheUpsert (tbl : CacheTable) (row : CacheRow) : CacheTable :=
  tbl.filter (fun r => r.file_path != row.file_path) ++ [row]

/-- Outcome of one `analyze_file_with_progress` call: the returned analysis,
the `code_analysis` table afterwards, and whether the extractor ran
(instrumentation for the "no recomputation on a hit" claim). -/
structure AnalyzeResult where
  analysis : CodeAnalysis
  cache : CacheTable
  recomputed : Bool
deriving Repr

/-- Embeds `analyze_file_with_progress` (lines 220–283).  `fs` is the file system
(path ↦ contents; `none` covers both `os.path.exists` failing and an
unreadable file, for which `get_file_hash` returns `""` and the method
returns `None`).  `md5` is the `hashlib.md5(...).hexdigest()` digest
function.  The trailing `update_achievements('code_analysis')` call touches
only the achievements table and is modelled with `increment_achievement`
separately. -/
def analyze_file_with_progress (md5 : Str → Str) (secScan : Str → List Str)
    (po : PatternOracles) (parse : Str → Except Str PyNode) (fs : Str → Option Str)
    (cache : CacheTable) (file_path ext : Str) : Option AnalyzeResult :=
  match fs file_path with
  | none => none
  | some content =>
    let file_hash := md5 content
    if file_hash.isEmpty then none
    else
      match cacheSelect cache file_path file_hash with
      | some a => some ⟨a, cache, false⟩
      | none =>
        let analysis := extract secScan po parse file_path content ext
        let cache2 := cacheUpsert cache
          ⟨file_path, file_hash, analysis.language, analysis.lines_of_code,
           analysis.complexity_score, analysis⟩
        some ⟨analysis, cache2, true⟩

/-! ### Achievements (`achievements` table, `database.py` lines 63–72 and 136–162) -/

/-- A row of the `achievements` table; timestamps are abstract instants
(`Nat`). -/
structure AchRow where
  name : Str
  description : Str
  unlocked : Bool
  progress : Nat
  target : Nat
  unlocked_at : Option Nat
deriving DecidableEq, Repr

abbrev AchTable := List AchRow

/-- Predicate of the `INSERT OR IGNORE` existence test: `name = ?`. -/
def hasName (name : Str) (r : AchRow) : Bool := r.name == name

/-- One row under `UPDATE achievements SET progress = progress + 1 WHERE
name = ? AND unlocked = FALSE`. -/
def bumpRow (name : Str) (r : AchRow) : AchRow :=
  if r.name == name && !r.unlocked then { r with progress := r.progress + 1 } else r

/-- Predicate of the unlock check `SELECT progress FROM achievements WHERE
name = ? AND progress >= target AND unlocked = FALSE` (`target` is the row's
own column). -/
def unlockCheck (name : Str) (r : AchRow) : Bool :=
  r.name == name && decide (r.target ≤ r.progress) && !r.unlocked

/-- One row under `UPDATE achievements SET unlocked = TRUE, unlocked_at =
CURRENT_TIMESTAMP WHERE name = ?`. -/
def unlockRow (name : Str) (now : Nat) (r : AchRow) : AchRow :=
  if r.name == name then { r with unlocked := true, unlocked_at := some now } else r

/-- Embeds `INSERT OR IGNORE INTO achievements (name, target, description)`
(lines 139–142): create the row with the column defaults
`unlocked=FALSE, progress=0, unlocked_at=NULL` when the primary key is
absent, otherwise leave the table unchanged. -/
def insertIgnore (tbl : AchTable) (name : Str) (target : Nat) : AchTable :=
  if tbl.any (hasName name) then tbl
  else tbl ++ [⟨name, "Achievement: ".data ++ name, false, 0, target, none⟩]

/-- Embeds `UPDATE achievements SET progress = progress + 1 WHERE name = ? AND
unlocked = FALSE` (lines 144–148). -/
def progressUpdate (tbl : AchTable) (name : Str) : AchTable :=
  tbl.map (bumpRow name)

/-- Embeds `increment_achievement` (lines 136–162), statement by statement:
the `INSERT OR IGNORE`, then the progress `UPDATE`, then the unlock check
`SELECT`, and on a hit the unlock `UPDATE`. -/
def increment_achievement (tbl : AchTable) (name : Str) (target : Nat) (now : Nat) :
    AchTable :=
  let tbl2 := progressUpdate (insertIgnore tbl name target) name
  if tbl2.any (unlockCheck name) then tbl2.map (unlockRow name now)
  else tbl2

/-- First row for a given achievement name (unique by primary key). -/
def findRow (tbl : AchTable) (name : Str) : Option AchRow :=
  tbl.find? (fun r => r.name == name)

/-! ### Conversations and sessions (`conversations` / `sessions` tables,
`database.py` lines 28–38, 53–61, 107–121, 164–185) -/

/-- A row of the `conversations` table. -/
structure ConvRow where
  id : Nat
  session_name : Str
  timestamp : Nat
  user_input : Str
  ai_response : Str
  context_used : Str
  model_used : Str
deriving DecidableEq, Repr

/-- The row → `Conversation` dataclass conversion of `get_recent_context`
(lines 176–184): `model_used` falls back to `"mistral"` when the column is
falsy. -/
def rowToConv (r : ConvRow) : ConvRow :=
  { r with model_used := if r.model_used.isEmpty then "mistral".data else r.model_used }

/-- Embeds `ORDER BY timestamp DESC`: newer (or equal) timestamps first. -/
def tsDesc (a b : ConvRow) : Prop := b.timestamp ≤ a.timestamp

instance : DecidableRel tsDesc := fun _ _ => Nat.decLe _ _

instance : IsTotal ConvRow tsDesc := ⟨fun a b => Nat.le_total b.timestamp a.timestamp⟩

instance : IsTrans ConvRow tsDesc := ⟨fun _ _ _ h1 h2 => Nat.le_trans h2 h1⟩

/-- Embeds `get_recent_context` (lines 164–185): select the session's rows ordered
by `timestamp DESC`, `LIMIT ?`, build `Conversation` values, and return
`list(reversed(conversations))`. -/
def get_recent_context (tbl : List ConvRow) (session_name : Str) (limit : Nat) :
    List ConvRow :=
  ((((List.insertionSort tsDesc
        (tbl.filter (fun r => r.session_name == session_name))).take limit).reverse).map
    rowToConv)

/-- A row of the `sessions` table. -/
structure SessRow where
  name : Str
  created_at : Nat
  last_used : Nat
  description : Option Str
  mood : Str
deriving DecidableEq, Repr

/-- The `AUTOINCREMENT` id for a new conversation row. -/
def nextConvId (tbl : List ConvRow) : Nat := (tbl.map (·.id)).foldr max 0 + 1

/-- Embeds `save_conversation` (lines 107–121): insert the conversation row, then
`INSERT OR REPLACE INTO sessions (name, last_used) VALUES (?, CURRENT_TIMESTAMP)`.
In SQLite, `INSERT OR REPLACE` on an existing primary key deletes the old row
and inserts a brand-new one, so every column not named in the statement takes
its schema default: `created_at := CURRENT_TIMESTAMP`, `description := NULL`,
`mood := 'neutral'`.  The trailing `update_achievements('conversation')` call
touches only the achievements table. -/
def save_conversation (convs : List ConvRow) (sessions : List SessRow)
    (session_name user_input ai_response context model : Str) (now : Nat) :
    List ConvRow × List SessRow :=
  (convs ++ [⟨nextConvId convs, session_name, now, user_input, ai_response, context, model⟩],
   (sessions.filter (fun r => r.name != session_name))
     ++ [⟨session_name, now, now, none, "neutral".data⟩])

/-! ## Spec-side definitions for the complexity formula (claim C2)

These two follow the spec's words ("total number of decision-point nodes
found inside each function-definition node's subtree", "number of
functions") rather than the source's accumulator loop; the claim compares
the two. -/

/-- Spec-side: number of function-definition nodes in the tree. -/
def numFunctions (t : PyNode) : Nat := ((walk t).filter isFunctionDef).length

/-- Spec-side: decision points summed over every function definition's
subtree. -/
def totalDecisionPoints (t : PyNode) : Nat :=
  (((walk t).filter isFunctionDef).map countDecisions).sum

/-! ## Concrete values used by witnesses and counterexamples -/

/-- A small concrete analysis value for cache witnesses. -/
def sampleAnalysis : CodeAnalysis :=
  ⟨"f.py".data, "python".data, 1, 0, [], [], [], [], []⟩

/-- A cache row for path `f.py` with digest `h1`. -/
def sampleRow1 : CacheRow :=
  ⟨"f.py".data, "h1".data, "python".data, 1, 0, sampleAnalysis⟩

/-- A cache row for the same path `f.py` with a different digest `h2`. -/
def sampleRow2 : CacheRow :=
  ⟨"f.py".data, "h2".data, "python".data, 1, 0, sampleAnalysis⟩

/-! ## Helper lemmas -/

theorem mem_ite_singleton {α : Type} {c : Prop} [Decidable c] {a x : α} :
    a ∈ (if c then [x] else []) ↔ c ∧ a = x := by
  split <;> simp_all

theorem pyStep_complexity (acc : PyAcc) (n : PyNode) :
    (pyStep acc n).complexity
      = acc.complexity + (if isFunctionDef n then countDecisions n else 0) := by
  cases n <;> simp [pyStep, isFunctionDef]

theorem pyStep_functions_length (acc : PyAcc) (n : PyNode) :
    (pyStep acc n).functions.length
      = acc.functions.length + (if isFunctionDef n then 1 else 0) := by
  cases n <;> simp [pyStep, isFunctionDef]

theorem foldl_pyStep_complexity (ns : List PyNode) (acc : PyAcc) :
    (ns.foldl pyStep acc).complexity
      = acc.complexity + ((ns.filter isFunctionDef).map countDecisions).sum := by
  induction ns generalizing acc with
  | nil => simp
  | cons n rest ih =>
    rw [List.foldl_cons, ih, pyStep_complexity]
    by_cases h : isFunctionDef n <;> simp [h, List.filter_cons] <;> omega

theorem foldl_pyStep_functions_length (ns : List PyNode) (acc : PyAcc) :
    (ns.foldl pyStep acc).functions.length
      = acc.functions.length + (ns.filter isFunctionDef).length := by
  induction ns generalizing acc with
  | nil => simp
  | cons n rest ih =>
    rw [List.foldl_cons, ih, pyStep_functions_length]
    by_cases h : isFunctionDef n <;> simp [h, List.filter_cons] <;> omega

theorem pyCountF_pos_iff {needle : Str} (hne : needle ≠ []) :
    ∀ (fuel : Nat) (hay : Str), hay.length ≤ fuel →
      (0 < pyCountF needle fuel hay ↔ needle <:+: hay) := by
  intro fuel
  induction fuel with
  | zero =>
    intro hay hlen
    have : hay = [] := List.length_eq_zero.mp (Nat.le_zero.mp hlen)
    subst this
    simp [pyCountF, List.infix_nil, hne]
  | succ fuel ih =>
    intro hay hlen
    match hay with
    | [] => simp [pyCountF, List.infix_nil, hne]
    | c :: rest =>
      rw [pyCountF]
      have hpf : needle.isPrefixOf (c :: rest) = true ↔ needle <+: c :: rest :=
        List.isPrefixOf_iff_prefix
      by_cases hp : needle <+: c :: rest
      · rw [if_pos (hpf.mpr hp)]
        exact ⟨fun _ => hp.isInfix, fun _ => Nat.add_pos_left Nat.one_pos _⟩
      · rw [if_neg (fun hb => hp (hpf.mp hb))]
        have hr : rest.length ≤ fuel := by
          simp only [List.length_cons] at hlen; omega
        rw [ih rest hr, List.infix_cons_iff]
        tauto

theorem pyCount_pos_iff {needle : Str} (hne : needle ≠ []) (hay : Str) :
    0 < pyCount needle hay ↔ needle <:+: hay :=
  pyCountF_pos_iff hne hay.length hay (Nat.le_refl _)

theorem mem_pyIssues_print (nfunctions loc : Nat) (score : ℚ) (nclasses : Nat)
    (content : Str) :
    printIssue ∈ pyIssues nfunctions loc score nclasses content
      ↔ ("print(".data <:+: content ∧ ¬ "debug".data <:+: pyLower content) := by
  have h1 : printIssue ≠ highFunctionIssue := by decide
  have h2 : printIssue ≠ largeFileIssue := by decide
  have h3 : printIssue ≠ highComplexityIssue := by decide
  have h4 : printIssue ≠ manyClassesIssue := by decide
  have h5 : printIssue ≠ todoIssue := by decide
  have h6 : printIssue ≠ bareExceptIssue := by decide
  simp [pyIssues, List.mem_append, mem_ite_singleton, h1, h2, h3, h4, h5, h6]

theorem mem_pyIssues_todo (nfunctions loc : Nat) (score : ℚ) (nclasses : Nat)
    (content : Str) :
    todoIssue ∈ pyIssues nfunctions loc score nclasses content
      ↔ ("todo".data <:+: pyLower content ∨ "fixme".data <:+: pyLower content) := by
  have h1 : todoIssue ≠ highFunctionIssue := by decide
  have h2 : todoIssue ≠ largeFileIssue := by decide
  have h3 : todoIssue ≠ highComplexityIssue := by decide
  have h4 : todoIssue ≠ manyClassesIssue := by decide
  have h5 : todoIssue ≠ bareExceptIssue := by decide
  have h6 : todoIssue ≠ printIssue := by decide
  simp [pyIssues, List.mem_append, mem_ite_singleton, h1, h2, h3, h4, h5, h6]

theorem mem_genericIssues_todo (loc : Nat) (content : Str) :
    todoIssue ∈ genericIssues loc content
      ↔ ("TODO".data <:+: content ∨ "FIXME".data <:+: content) := by
  have hT := pyCount_pos_iff (show ("TODO".data : Str) ≠ [] by decide) content
  have hF := pyCount_pos_iff (show ("FIXME".data : Str) ≠ [] by decide) content
  unfold genericIssues
  rw [List.mem_append, mem_ite_singleton, mem_ite_singleton]
  constructor
  · rintro (⟨_, hbad⟩ | ⟨hpos, _⟩)
    · exact absurd hbad (by decide)
    · by_cases h0 : 0 < pyCount "TODO".data content
      · exact Or.inl (hT.mp h0)
      · exact Or.inr (hF.mp (by omega))
  · intro h
    refine Or.inr ⟨?_, rfl⟩
    rcases h with h | h
    · have := hT.mpr h; omega
    · have := hF.mpr h; omega

theorem pyCollect_complexity (t : PyNode) :
    (pyCollect t).complexity = totalDecisionPoints t := by
  simp [pyCollect, foldl_pyStep_complexity, totalDecisionPoints]

theorem pyCollect_functions_length (t : PyNode) :
    (pyCollect t).functions.length = numFunctions t := by
  simp [pyCollect, foldl_pyStep_functions_length, numFunctions]

/-! ## Claims -/

/-- C2: for every parsed (syntactically valid) Python input, the computed
`complexity_score` equals the decision points summed over each function
definition's subtree divided by `max(number of functions, 1)`; it is `0`
when there are no functions and always nonnegative; and on a sample with
two functions containing three conditionals and one loop it is `2.0`. -/
theorem complexity_score_formula :
    (∀ (secScan : Str → List Str) (path content : Str) (t : PyNode),
      (analyze_python_file secScan path content (.ok t)).complexity_score
          = (totalDecisionPoints t : ℚ) / ((max (numFunctions t) 1 : Nat) : ℚ)
        ∧ 0 ≤ (analyze_python_file secScan path content (.ok t)).complexity_score
        ∧ (numFunctions t = 0 →
            (analyze_python_file secScan path content (.ok t)).complexity_score = 0))
    ∧ (analyze_python_file (fun _ => []) [] []
        (.ok (.other [.functionDef "A".data [.ifStmt [], .ifStmt [], .ifStmt []],
                      .functionDef "B".data [.forStmt []]]))).complexity_score = 2 := by
  constructor
  · intro secScan path content t
    have hs : (analyze_python_file secScan path content (.ok t)).complexity_score
        = mkRat (pyCollect t).complexity (max (pyCollect t).functions.length 1) := rfl
    rw [hs, pyCollect_complexity, pyCollect_functions_length, Rat.mkRat_eq_div]
    refine ⟨by push_cast; ring, ?_, ?_⟩
    · apply div_nonneg
      · positivity
      · positivity
    · intro h0
      have : totalDecisionPoints t = 0 := by
        have : ((walk t).filter isFunctionDef) = [] := List.length_eq_zero.mp h0
        simp [totalDecisionPoints, this]
      simp [this]
  · decide

/-- C6: on a parse failure the Python analyzer degrades instead of
aborting: empty functions/classes/imports, zero complexity, `lines_of_code`
equal to the raw `splitlines` count, and exactly one issue recording the
syntax error.  The two closing conjuncts exhibit a content whose raw line
count (3) differs from the non-blank/non-comment count (1) used on the
success path. -/
theorem parse_failure_degraded :
    (∀ (secScan : Str → List Str) (path content e : Str),
      analyze_python_file secScan path content (.error e) =
        { file_path := path
          language := "python".data
          lines_of_code := (splitlines content).length
          complexity_score := 0
          functions := []
          classes := []
          imports := []
          issues := ["Syntax Error: ".data ++ e]
          security_issues := [] })
    ∧ (splitlines "#c\n\nx=1\n".data).length = 3
    ∧ (analyze_python_file (fun _ => []) [] "#c\n\nx=1\n".data
        (.ok (.other []))).lines_of_code = 1 :=
  ⟨fun _ _ _ _ => rfl, by decide, by decide⟩

/-- Witness for C2: on a tree with no function definitions the score is 0. -/
theorem complexity_score_formula_witness :
    (analyze_python_file (fun _ => []) [] [] (.ok (.other []))).complexity_score = 0 :=
  (complexity_score_formula.1 (fun _ => []) [] [] (.other [])).2.2 (by decide)

/-- C8 counterexample: the claim "the TODO/FIXME check is case-insensitive
on both paths" fails on the pattern (generic) path: the content `"todo"`
contains "todo" case-insensitively, yet the generic analyzer emits no
TODO/FIXME issue (its test counts the uppercase literals only). -/
theorem todo_check_uniformity_cex :
    ("todo".data <:+: pyLower "todo".data)
    ∧ todoIssue ∉
        (analyze_generic_file emptyOracles [] "todo".data "unknown".data).issues := by
  decide

/-- C8 amended: on the Python path the TODO/FIXME issue is emitted iff the
lower-cased content contains "todo" or "fixme"; on the generic path it is
emitted iff the content contains the case-sensitive "TODO" or "FIXME". -/
theorem todo_check_per_path :
    (∀ (secScan : Str → List Str) (path content : Str) (t : PyNode),
      todoIssue ∈ (analyze_python_file secScan path content (.ok t)).issues
        ↔ ("todo".data <:+: pyLower content ∨ "fixme".data <:+: pyLower content))
    ∧ (∀ (po : PatternOracles) (path content language : Str),
      todoIssue ∈ (analyze_generic_file po path content language).issues
        ↔ ("TODO".data <:+: content ∨ "FIXME".data <:+: content)) := by
  constructor
  · intro secScan path content t
    exact mem_pyIssues_todo _ _ _ _ _
  · intro po path content language
    exact mem_genericIssues_todo _ _

/-- Witness for C8 (amended): a generic-path content containing "TODO" does
receive the issue. -/
theorem todo_check_per_path_witness :
    todoIssue ∈
      (analyze_generic_file emptyOracles [] "xTODO".data "unknown".data).issues :=
  (todo_check_per_path.2 emptyOracles [] "xTODO".data "unknown".data).mpr (by decide)

/-- C10: on the (syntactically valid) Python path, the seventh quality check
emits the "Print statements found" warning iff the content contains the
substring `print(` and its lower-cased text does not contain `debug`. -/
theorem print_statement_check :
    ∀ (secScan : Str → List Str) (path content : Str) (t : PyNode),
      printIssue ∈ (analyze_python_file secScan path content (.ok t)).issues
        ↔ ("print(".data <:+: content ∧ ¬ "debug".data <:+: pyLower content) := by
  intro secScan path content t
  exact mem_pyIssues_print _ _ _ _ _

/-- Witness for C10: `print(1)` with no "debug" receives the warning. -/
theorem print_statement_check_witness :
    printIssue ∈
      (analyze_python_file (fun _ => []) [] "print(1)".data (.ok (.other []))).issues :=
  (print_statement_check (fun _ => []) [] "print(1)".data (.other [])).mpr (by decide)

theorem genericIssues_subset (loc : Nat) (content : Str) :
    genericIssues loc content ⊆ [largeFileIssue, todoIssue] := by
  intro s hs
  rw [genericIssues, List.mem_append, mem_ite_singleton, mem_ite_singleton] at hs
  rcases hs with ⟨_, rfl⟩ | ⟨_, rfl⟩ <;> simp

/-- C9 counterexample: the claim "exactly one advisory issue is emitted for
an unknown extension" fails: a one-line unknown-extension file with no TODO
marker yields an empty issue list. -/
theorem unknown_extension_single_issue_cex :
    classify ".xyz".data = "unknown".data
    ∧ (extract (fun _ => []) emptyOracles (fun _ => .error []) []
        "hello".data ".xyz".data).issues = [] := by
  decide

/-- C9 amended: an extension outside the table classifies as `unknown` and
routes to the generic analyzer, which computes only the non-blank line
count (functions, classes, imports and security issues empty, complexity
0); its issues are drawn from the two content-dependent warnings only
(large file, TODO/FIXME) — possibly none, with no unconditional advisory. -/
theorem unknown_extension_minimal :
    ∀ ext : Str, List.lookup ext SUPPORTED_EXTENSIONS = none →
      classify ext = "unknown".data
      ∧ ∀ (secScan : Str → List Str) (po : PatternOracles)
          (parse : Str → Except Str PyNode) (path content : Str),
          extract secScan po parse path content ext
              = analyze_generic_file po path content "unknown".data
          ∧ (extract secScan po parse path content ext).language = "unknown".data
          ∧ (extract secScan po parse path content ext).functions = []
          ∧ (extract secScan po parse path content ext).classes = []
          ∧ (extract secScan po parse path content ext).imports = []
          ∧ (extract secScan po parse path content ext).security_issues = []
          ∧ (extract secScan po parse path content ext).complexity_score = 0
          ∧ (extract secScan po parse path content ext).lines_of_code
              = ((splitlines content).filter (fun l => !(pyStrip l).isEmpty)).length
          ∧ (extract secScan po parse path content ext).issues
              ⊆ [largeFileIssue, todoIssue] := by
  intro ext h
  have hcl : classify ext = "unknown".data := by
    unfold classify
    rw [h]
    rfl
  refine ⟨hcl, ?_⟩
  intro secScan po parse path content
  have hex : extract secScan po parse path content ext
      = analyze_generic_file po path content "unknown".data := by
    unfold extract
    rw [hcl]
    rfl
  refine ⟨hex, ?_, ?_, ?_, ?_, ?_, ?_, ?_, ?_⟩
  · rw [hex]; rfl
  · rw [hex]; rfl
  · rw [hex]; rfl
  · rw [hex]; rfl
  · rw [hex]; rfl
  · rw [hex]; rfl
  · rw [hex]; rfl
  · rw [hex]
    exact genericIssues_subset _ _

/-- Witness for C9 (amended): the `.xyz` extension is outside the table and
the resulting analysis carries language `unknown`. -/
theorem unknown_extension_minimal_witness :
    (extract (fun _ => []) emptyOracles (fun _ => .error []) []
      "hello".data ".xyz".data).language = "unknown".data :=
  (((unknown_extension_minimal ".xyz".data (by decide)).2
    (fun _ => []) emptyOracles (fun _ => .error []) [] "hello".data)).2.1

theorem cacheUpsert_pairwise (tbl : CacheTable) (row : CacheRow)
    (h : tbl.Pairwise (fun a b => a.file_path ≠ b.file_path)) :
    (cacheUpsert tbl row).Pairwise (fun a b => a.file_path ≠ b.file_path) := by
  unfold cacheUpsert
  rw [List.pairwise_append]
  refine ⟨h.filter _, List.pairwise_singleton _ _, ?_⟩
  intro a ha b hb
  rw [List.mem_filter] at ha
  rw [List.mem_singleton] at hb
  subst hb
  exact bne_iff_ne.mp ha.2

theorem foldl_cacheUpsert_pairwise (ops : List CacheRow) :
    ∀ tbl : CacheTable, tbl.Pairwise (fun a b => a.file_path ≠ b.file_path) →
      (ops.foldl cacheUpsert tbl).Pairwise (fun a b => a.file_path ≠ b.file_path) := by
  induction ops with
  | nil => exact fun _ h => h
  | cons r rest ih => exact fun tbl h => ih _ (cacheUpsert_pairwise tbl r h)

theorem filter_ne_then_eq (tbl : CacheTable) (p : Str) :
    (tbl.filter (fun r => r.file_path != p)).filter (fun r => r.file_path == p) = [] := by
  induction tbl with
  | nil => rfl
  | cons r rest ih =>
    rw [List.filter_cons]
    by_cases h : r.file_path == p
    · simp only [bne, h, Bool.not_true, if_neg]
      exact ih
    · rw [if_pos (by simp [bne, h]), List.filter_cons, if_neg (by simp [h])]
      exact ih

/-- C5: the `code_analysis` table holds at most one row per `file_path`
after any sequence of stores starting from the freshly created table, and
two stores for one path with different digests leave exactly the second
row for that path. -/
theorem cache_at_most_one_row_per_path :
    (∀ ops : List CacheRow,
      (ops.foldl cacheUpsert []).Pairwise (fun a b => a.file_path ≠ b.file_path))
    ∧ (∀ (tbl : CacheTable) (r1 r2 : CacheRow), r1.file_path = r2.file_path →
        (cacheUpsert (cacheUpsert tbl r1) r2).filter
          (fun r => r.file_path == r2.file_path) = [r2]) := by
  constructor
  · intro ops
    exact foldl_cacheUpsert_pairwise ops [] List.Pairwise.nil
  · intro tbl r1 r2 hpath
    show ((((tbl.filter fun r => r.file_path != r1.file_path) ++ [r1]).filter
        fun r => r.file_path != r2.file_path) ++ [r2]).filter
        (fun r => r.file_path == r2.file_path) = [r2]
    rw [List.filter_append, List.filter_append, List.filter_append]
    rw [filter_ne_then_eq]
    have h1 : List.filter (fun r => r.file_path != r2.file_path) [r1] = [] := by
      rw [List.filter_cons]
      rw [if_neg (by simp [bne, hpath])]
      rfl
    rw [h1]
    have h2 : List.filter (fun r => r.file_path == r2.file_path) [r2] = [r2] := by
      rw [List.filter_cons, if_pos (by simp)]
      rfl
    rw [h2]
    rfl

/-- Witness for C5: two concrete stores for `f.py` with digests `h1` then
`h2` leave exactly the `h2` row. -/
theorem cache_at_most_one_row_per_path_witness :
    (cacheUpsert (cacheUpsert [] sampleRow1) sampleRow2).filter
      (fun r => r.file_path == sampleRow2.file_path) = [sampleRow2] :=
  cache_at_most_one_row_per_path.2 [] sampleRow1 sampleRow2 rfl

theorem isEmpty_false_of_ne_nil {l : Str} (h : l ≠ []) : l.isEmpty = false := by
  cases l with
  | nil => exact absurd rfl h
  | cons c t => rfl

theorem cacheSelect_upsert_self (tbl : CacheTable) (row : CacheRow) :
    cacheSelect (cacheUpsert tbl row) row.file_path row.file_hash
      = some row.analysis_data := by
  unfold cacheSelect cacheUpsert
  rw [List.find?_append]
  have h : (tbl.filter (fun r => r.file_path != row.file_path)).find?
      (fun r => r.file_path == row.file_path && r.file_hash == row.file_hash) = none := by
    rw [List.find?_eq_none]
    intro x hx
    rw [List.mem_filter] at hx
    have hne : x.file_path ≠ row.file_path := bne_iff_ne.mp hx.2
    simp only [Bool.and_eq_true, beq_iff_eq, not_and]
    exact fun hxp => absurd hxp hne
  rw [h]
  simp

theorem find?_other_hash_none (path h h' : Str) (hne : h' ≠ h) :
    ∀ tbl : CacheTable, tbl.Pairwise (fun a b => a.file_path ≠ b.file_path) →
      (tbl.find? (fun r => r.file_path == path && r.file_hash == h)).isSome = true →
      tbl.find? (fun r => r.file_path == path && r.file_hash == h') = none := by
  intro tbl
  induction tbl with
  | nil => intro _ hs; simp at hs
  | cons r rest ih =>
    intro hWF hs
    rw [List.pairwise_cons] at hWF
    obtain ⟨hhead, htail⟩ := hWF
    by_cases hqr : (r.file_path == path && r.file_hash == h) = true
    · simp only [Bool.and_eq_true, beq_iff_eq] at hqr
      obtain ⟨hrp, hrh⟩ := hqr
      rw [List.find?_eq_none]
      intro x hx
      rcases List.mem_cons.mp hx with hxr | hx'
      · subst hxr
        simp only [Bool.and_eq_true, beq_iff_eq, not_and]
        exact fun _ hh => hne (hh.symm.trans hrh)
      · have hnep : r.file_path ≠ x.file_path := hhead x hx'
        simp only [Bool.and_eq_true, beq_iff_eq, not_and]
        intro hxp
        exact fun _ => hnep (hrp.trans hxp.symm)
    · rw [Bool.not_eq_true] at hqr
      have hs' : (rest.find?
          (fun x => x.file_path == path && x.file_hash == h)).isSome = true := by
        rw [List.find?_cons, hqr] at hs
        exact hs
      have hq'r : (r.file_path == path && r.file_hash == h') = false := by
        rw [Bool.eq_false_iff]
        intro hq'
        simp only [Bool.and_eq_true, beq_iff_eq] at hq'
        obtain ⟨y, hy⟩ := Option.isSome_iff_exists.mp hs'
        have hyq := List.find?_some hy
        have hymem := List.mem_of_find?_eq_some hy
        simp only [Bool.and_eq_true, beq_iff_eq] at hyq
        exact hhead y hymem (hq'.1.trans hyq.1.symm)
      rw [List.find?_cons, hq'r]
      exact ih htail hs'

theorem cacheSelect_other_hash_none (tbl : CacheTable) (path h h' : Str)
    (hWF : tbl.Pairwise (fun a b => a.file_path ≠ b.file_path))
    (hs : (cacheSelect tbl path h).isSome = true) (hne : h' ≠ h) :
    cacheSelect tbl path h' = none := by
  have hs' : (tbl.find?
      (fun r => r.file_path == path && r.file_hash == h)).isSome = true := by
    unfold cacheSelect at hs
    cases hfind : tbl.find? (fun r => r.file_path == path && r.file_hash == h) with
    | none => rw [hfind] at hs; simp at hs
    | some a => rfl
  unfold cacheSelect
  rw [find?_other_hash_none path h h' hne tbl hWF hs']
  rfl

theorem recompute_after_change (md5 : Str → Str) (secScan : Str → List Str)
    (po : PatternOracles) (parse : Str → Except Str PyNode) (fs' : Str → Option Str)
    (cache1 : CacheTable) (file_path ext content' h : Str)
    (hWF1 : cache1.Pairwise (fun a b => a.file_path ≠ b.file_path))
    (hsome : (cacheSelect cache1 file_path h).isSome = true)
    (hfs' : fs' file_path = some content')
    (hneq : md5 content' ≠ h) (hne' : md5 content' ≠ []) :
    ∃ r2 : AnalyzeResult,
      analyze_file_with_progress md5 secScan po parse fs' cache1 file_path ext = some r2
      ∧ r2.recomputed = true
      ∧ r2.analysis = extract secScan po parse file_path content' ext
      ∧ analyze_file_with_progress md5 secScan po parse fs' r2.cache file_path ext
          = some ⟨r2.analysis, r2.cache, false⟩ := by
  have hE' := isEmpty_false_of_ne_nil hne'
  have hmiss : cacheSelect cache1 file_path (md5 content') = none :=
    cacheSelect_other_hash_none cache1 file_path h (md5 content') hWF1 hsome hneq
  refine ⟨⟨extract secScan po parse file_path content' ext,
           cacheUpsert cache1 ⟨file_path, md5 content',
             (extract secScan po parse file_path content' ext).language,
             (extract secScan po parse file_path content' ext).lines_of_code,
             (extract secScan po parse file_path content' ext).complexity_score,
             extract secScan po parse file_path content' ext⟩, true⟩, ?_, rfl, rfl, ?_⟩
  · simp [analyze_file_with_progress, hfs', hE', hmiss]
  · have hself : cacheSelect
        (cacheUpsert cache1 ⟨file_path, md5 content',
          (extract secScan po parse file_path content' ext).language,
          (extract secScan po parse file_path content' ext).lines_of_code,
          (extract secScan po parse file_path content' ext).complexity_score,
          extract secScan po parse file_path content' ext⟩)
        file_path (md5 content')
        = some (extract secScan po parse file_path content' ext) :=
      cacheSelect_upsert_self cache1 _
    simp [analyze_file_with_progress, hfs', hE', hself]

/-- C1: caching is correct.  Given a first request `some r1` on a file whose
content hashes non-trivially: (a) repeating the request with unchanged bytes
returns the same `CodeAnalysis` value out of the cache without re-running
the extractor (`recomputed = false`, cache unchanged); (b) if the bytes
change so that the digest changes, the request misses, re-runs the extractor
(`recomputed = true`) and writes back, after which the next request on the
new bytes is again a hit. -/
theorem analysis_cache_correctness :
    ∀ (md5 : Str → Str) (secScan : Str → List Str) (po : PatternOracles)
      (parse : Str → Except Str PyNode) (fs fs' : Str → Option Str)
      (cache : CacheTable) (file_path ext content content' : Str) (r1 : AnalyzeResult),
      fs file_path = some content →
      analyze_file_with_progress md5 secScan po parse fs cache file_path ext = some r1 →
      (analyze_file_with_progress md5 secScan po parse fs r1.cache file_path ext
          = some ⟨r1.analysis, r1.cache, false⟩)
      ∧ (cache.Pairwise (fun a b => a.file_path ≠ b.file_path) →
         fs' file_path = some content' →
         md5 content' ≠ md5 content →
         md5 content' ≠ [] →
         ∃ r2 : AnalyzeResult,
           analyze_file_with_progress md5 secScan po parse fs' r1.cache file_path ext
               = some r2
           ∧ r2.recomputed = true
           ∧ r2.analysis = extract secScan po parse file_path content' ext
           ∧ analyze_file_with_progress md5 secScan po parse fs' r2.cache file_path ext
               = some ⟨r2.analysis, r2.cache, false⟩) := by
  intro md5 secScan po parse fs fs' cache file_path ext content content' r1 hfs h1
  have hE : (md5 content).isEmpty = false := by
    by_contra hc
    rw [Bool.not_eq_false] at hc
    simp [analyze_file_with_progress, hfs, hc] at h1
  cases hsel : cacheSelect cache file_path (md5 content) with
  | some a =>
    have hval : analyze_file_with_progress md5 secScan po parse fs cache file_path ext
        = some ⟨a, cache, false⟩ := by
      simp [analyze_file_with_progress, hfs, hE, hsel]
    rw [h1] at hval
    injection hval with hval
    subst hval
    constructor
    · simp [analyze_file_with_progress, hfs, hE, hsel]
    · intro hWF hfs' hneq hne'
      exact recompute_after_change md5 secScan po parse fs' cache file_path ext content'
        (md5 content) hWF (by rw [hsel]; rfl) hfs' hneq hne'
  | none =>
    have hval : analyze_file_with_progress md5 secScan po parse fs cache file_path ext
        = some ⟨extract secScan po parse file_path content ext,
            cacheUpsert cache ⟨file_path, md5 content,
              (extract secScan po parse file_path content ext).language,
              (extract secScan po parse file_path content ext).lines_of_code,
              (extract secScan po parse file_path content ext).complexity_score,
              extract secScan po parse file_path content ext⟩, true⟩ := by
      simp [analyze_file_with_progress, hfs, hE, hsel]
    rw [h1] at hval
    injection hval with hval
    subst hval
    have hself : cacheSelect
        (cacheUpsert cache ⟨file_path, md5 content,
          (extract secScan po parse file_path content ext).language,
          (extract secScan po parse file_path content ext).lines_of_code,
          (extract secScan po parse file_path content ext).complexity_score,
          extract secScan po parse file_path content ext⟩)
        file_path (md5 content)
        = some (extract secScan po parse file_path content ext) :=
      cacheSelect_upsert_self cache _
    constructor
    · simp [analyze_file_with_progress, hfs, hE, hself]
    · intro hWF hfs' hneq hne'
      exact recompute_after_change md5 secScan po parse fs' _ file_path ext content'
        (md5 content) (cacheUpsert_pairwise cache _ hWF) (by rw [hself]; rfl)
        hfs' hneq hne'

/-- Witness for C1: a concrete first (miss) request on content `"a"`,
followed by an identical second request, which is a hit returning the same
analysis with the cache unchanged and no recomputation. -/
theorem analysis_cache_correctness_witness :
    analyze_file_with_progress (fun c => 'h' :: c) (fun _ => []) emptyOracles
      (fun _ => Except.error []) (fun _ => some "a".data)
      (cacheUpsert [] ⟨"f.py".data, 'h' :: "a".data,
        (extract (fun _ => []) emptyOracles (fun _ => Except.error [])
          "f.py".data "a".data ".xyz".data).language,
        (extract (fun _ => []) emptyOracles (fun _ => Except.error [])
          "f.py".data "a".data ".xyz".data).lines_of_code,
        (extract (fun _ => []) emptyOracles (fun _ => Except.error [])
          "f.py".data "a".data ".xyz".data).complexity_score,
        extract (fun _ => []) emptyOracles (fun _ => Except.error [])
          "f.py".data "a".data ".xyz".data⟩)
      "f.py".data ".xyz".data
    = some ⟨extract (fun _ => []) emptyOracles (fun _ => Except.error [])
          "f.py".data "a".data ".xyz".data,
        cacheUpsert [] ⟨"f.py".data, 'h' :: "a".data,
          (extract (fun _ => []) emptyOracles (fun _ => Except.error [])
            "f.py".data "a".data ".xyz".data).language,
          (extract (fun _ => []) emptyOracles (fun _ => Except.error [])
            "f.py".data "a".data ".xyz".data).lines_of_code,
          (extract (fun _ => []) emptyOracles (fun _ => Except.error [])
            "f.py".data "a".data ".xyz".data).complexity_score,
          extract (fun _ => []) emptyOracles (fun _ => Except.error [])
            "f.py".data "a".data ".xyz".data⟩, false⟩ :=
  (analysis_cache_correctness (fun c => 'h' :: c) (fun _ => []) emptyOracles
    (fun _ => Except.error []) (fun _ => some "a".data) (fun _ => some "a".data)
    [] "f.py".data ".xyz".data "a".data "a".data
    ⟨extract (fun _ => []) emptyOracles (fun _ => Except.error [])
        "f.py".data "a".data ".xyz".data,
      cacheUpsert [] ⟨"f.py".data, 'h' :: "a".data,
        (extract (fun _ => []) emptyOracles (fun _ => Except.error [])
          "f.py".data "a".data ".xyz".data).language,
        (extract (fun _ => []) emptyOracles (fun _ => Except.error [])
          "f.py".data "a".data ".xyz".data).lines_of_code,
        (extract (fun _ => []) emptyOracles (fun _ => Except.error [])
          "f.py".data "a".data ".xyz".data).complexity_score,
        extract (fun _ => []) emptyOracles (fun _ => Except.error [])
          "f.py".data "a".data ".xyz".data⟩, true⟩ rfl rfl).1

theorem map_eq_self_of_mem {α : Type} {l : List α} {f : α → α}
    (h : ∀ a ∈ l, f a = a) : l.map f = l :=
  (List.map_congr_left h).trans (List.map_id l)

theorem bumpRow_name (name : Str) (r : AchRow) : (bumpRow name r).name = r.name := by
  unfold bumpRow
  split <;> rfl

theorem unlockRow_name (name : Str) (now : Nat) (r : AchRow) :
    (unlockRow name now r).name = r.name := by
  unfold unlockRow
  split <;> rfl

theorem bumpRow_of_ne {name : Str} {r : AchRow} (h : (r.name == name) = false) :
    bumpRow name r = r := by
  unfold bumpRow
  rw [h]
  rfl

theorem bumpRow_of_unlocked {name : Str} {r : AchRow} (h : r.unlocked = true) :
    bumpRow name r = r := by
  unfold bumpRow
  rw [h]
  rw [if_neg (by simp)]

theorem unlockRow_of_ne {name : Str} {now : Nat} {r : AchRow}
    (h : (r.name == name) = false) : unlockRow name now r = r := by
  unfold unlockRow
  rw [h]
  rfl

theorem find?_name_unique {tbl : AchTable} {name : Str} {r0 : AchRow}
    (hnd : (tbl.map AchRow.name).Nodup) (hmem : r0 ∈ tbl) (hr0 : r0.name = name) :
    tbl.find? (fun r => r.name == name) = some r0 := by
  induction tbl with
  | nil => exact absurd hmem (List.not_mem_nil r0)
  | cons r rest ih =>
    rw [List.map_cons, List.nodup_cons] at hnd
    obtain ⟨hnotin, hnd'⟩ := hnd
    rcases List.mem_cons.mp hmem with rfl | hmem'
    · rw [List.find?_cons_of_pos _ (by simp [hr0])]
    · have hrne : (r.name == name) = false := by
        rw [beq_eq_false_iff_ne]
        intro hcon
        exact hnotin (hcon ▸ hr0 ▸ List.mem_map_of_mem AchRow.name hmem')
      rw [List.find?_cons_of_neg _ (by simp [hrne]), ih hnd' hmem']

theorem increment_eq (tbl : AchTable) (name : Str) (target now : Nat) :
    increment_achievement tbl name target now
      = if (progressUpdate (insertIgnore tbl name target) name).any (unlockCheck name)
        then (progressUpdate (insertIgnore tbl name target) name).map (unlockRow name now)
        else progressUpdate (insertIgnore tbl name target) name := rfl

/-- C3: `increment_achievement` (a) creates a missing row (defaults
`progress=0, unlocked=false`) and then applies the normal increment to it,
(b) is a complete no-op when the row is unlocked, (c) otherwise adds exactly
1 to progress and unlocks (setting `unlocked_at := now`) exactly when the new
progress reaches the row's target; and with `target=3` three increments from
a fresh row give `unlocked` false→false→true with a fourth increment a
no-op. -/
theorem increment_achievement_behavior :
    (∀ (tbl : AchTable) (name : Str) (target now : Nat),
      (findRow tbl name = none →
        increment_achievement tbl name target now
          = tbl ++ [⟨name, "Achievement: ".data ++ name, decide (target ≤ 1), 1, target,
                     if target ≤ 1 then some now else none⟩])
      ∧ ((∃ r ∈ tbl, r.name = name) →
         (∀ r ∈ tbl, r.name = name → r.unlocked = true) →
          increment_achievement tbl name target now = tbl)
      ∧ (∀ r0 ∈ tbl, (tbl.map AchRow.name).Nodup → r0.name = name →
          r0.unlocked = false →
          findRow (increment_achievement tbl name target now) name
            = some { r0 with
                      progress := r0.progress + 1,
                      unlocked := decide (r0.target ≤ r0.progress + 1),
                      unlocked_at := if r0.target ≤ r0.progress + 1 then some now
                                     else r0.unlocked_at }))
    ∧ (increment_achievement [] "a".data 3 10
        = [⟨"a".data, "Achievement: a".data, false, 1, 3, none⟩]
      ∧ increment_achievement
          [⟨"a".data, "Achievement: a".data, false, 1, 3, none⟩] "a".data 3 11
        = [⟨"a".data, "Achievement: a".data, false, 2, 3, none⟩]
      ∧ increment_achievement
          [⟨"a".data, "Achievement: a".data, false, 2, 3, none⟩] "a".data 3 12
        = [⟨"a".data, "Achievement: a".data, true, 3, 3, some 12⟩]
      ∧ increment_achievement
          [⟨"a".data, "Achievement: a".data, true, 3, 3, some 12⟩] "a".data 3 13
        = [⟨"a".data, "Achievement: a".data, true, 3, 3, some 12⟩]) := by
  constructor
  · intro tbl name target now
    refine ⟨?_, ?_, ?_⟩
    · -- (a) fresh create
      intro h
      have hnone : ∀ x ∈ tbl, (x.name == name) = false := by
        intro x hx
        have hh : ¬ (x.name == name) = true := List.find?_eq_none.mp h x hx
        rwa [Bool.not_eq_true] at hh
      have hany : tbl.any (hasName name) = false := by
        rw [List.any_eq_false]
        intro x hx
        unfold hasName
        rw [hnone x hx]
        simp
      have hins : insertIgnore tbl name target
          = tbl ++ [⟨name, "Achievement: ".data ++ name, false, 0, target, none⟩] := by
        unfold insertIgnore
        exact if_neg (by rw [hany]; exact Bool.false_ne_true)
      have hb : bumpRow name ⟨name, "Achievement: ".data ++ name, false, 0, target,
          none⟩ = ⟨name, "Achievement: ".data ++ name, false, 1, target, none⟩ := by
        unfold bumpRow
        rw [if_pos (by simp)]
      have hprog : progressUpdate (tbl ++ [(⟨name, "Achievement: ".data ++ name, false,
          0, target, none⟩ : AchRow)]) name
          = tbl ++ [⟨name, "Achievement: ".data ++ name, false, 1, target, none⟩] := by
        unfold progressUpdate
        rw [List.map_append,
            map_eq_self_of_mem (fun x hx => bumpRow_of_ne (hnone x hx)),
            List.map_singleton, hb]
      have hanyU : (tbl ++ [(⟨name, "Achievement: ".data ++ name, false, 1, target,
          none⟩ : AchRow)]).any (unlockCheck name) = decide (target ≤ 1) := by
        rw [List.any_append]
        have h1 : tbl.any (unlockCheck name) = false := by
          rw [List.any_eq_false]
          intro x hx
          unfold unlockCheck
          rw [hnone x hx]
          simp
        rw [h1]
        simp [unlockCheck]
      rw [increment_eq, hins, hprog]
      by_cases ht : target ≤ 1
      · rw [if_pos (by rw [hanyU]; exact decide_eq_true ht)]
        have hu : unlockRow name now ⟨name, "Achievement: ".data ++ name, false, 1,
            target, none⟩
            = ⟨name, "Achievement: ".data ++ name, true, 1, target, some now⟩ := by
          unfold unlockRow
          rw [if_pos (by simp)]
        rw [List.map_append,
            map_eq_self_of_mem (fun x hx => unlockRow_of_ne (hnone x hx)),
            List.map_singleton, hu, decide_eq_true ht, if_pos ht]
      · rw [if_neg (by rw [hanyU, decide_eq_false ht]; exact Bool.false_ne_true),
            decide_eq_false ht, if_neg ht]
    · -- (b) unlocked no-op
      intro hex hall
      obtain ⟨r1, hr1mem, hr1name⟩ := hex
      have hany : tbl.any (hasName name) = true := by
        rw [List.any_eq_true]
        exact ⟨r1, hr1mem, by unfold hasName; simp [hr1name]⟩
      have hins : insertIgnore tbl name target = tbl := by
        unfold insertIgnore
        exact if_pos hany
      have hprog : progressUpdate tbl name = tbl := by
        unfold progressUpdate
        apply map_eq_self_of_mem
        intro x hx
        by_cases hxn : (x.name == name) = true
        · exact bumpRow_of_unlocked (hall x hx (beq_iff_eq.mp hxn))
        · exact bumpRow_of_ne (by rwa [Bool.not_eq_true] at hxn)
      have hanyU : tbl.any (unlockCheck name) = false := by
        rw [List.any_eq_false]
        intro x hx
        unfold unlockCheck
        by_cases hxn : (x.name == name) = true
        · rw [hall x hx (beq_iff_eq.mp hxn)]
          simp
        · rw [(by rwa [Bool.not_eq_true] at hxn : (x.name == name) = false)]
          simp
      rw [increment_eq, hins, hprog,
          if_neg (by rw [hanyU]; exact Bool.false_ne_true)]
    · -- (c) locked increment
      intro r0 hr0mem hnd hr0name hr0lock
      have hany : tbl.any (hasName name) = true := by
        rw [List.any_eq_true]
        exact ⟨r0, hr0mem, by unfold hasName; simp [hr0name]⟩
      have hins : insertIgnore tbl name target = tbl := by
        unfold insertIgnore
        exact if_pos hany
      have hbr0 : bumpRow name r0 = { r0 with progress := r0.progress + 1 } := by
        unfold bumpRow
        rw [if_pos (by simp [hr0name, hr0lock])]
      have hpe : ((fun r : AchRow => r.name == name) ∘ (bumpRow name))
          = (fun r : AchRow => r.name == name) :=
        funext (fun x => by simp [Function.comp, bumpRow_name])
      have hfind2 : (tbl.map (bumpRow name)).find? (fun r => r.name == name)
          = some (bumpRow name r0) := by
        rw [List.find?_map, hpe, find?_name_unique hnd hr0mem hr0name]
        rfl
      have hanyU : (tbl.map (bumpRow name)).any (unlockCheck name)
          = decide (r0.target ≤ r0.progress + 1) := by
        rw [List.any_map]
        cases hdec : decide (r0.target ≤ r0.progress + 1) with
        | true =>
          rw [List.any_eq_true]
          refine ⟨r0, hr0mem, ?_⟩
          show unlockCheck name (bumpRow name r0) = true
          rw [hbr0]
          unfold unlockCheck
          simp [hr0name, hr0lock, hdec]
        | false =>
          rw [List.any_eq_false]
          intro x hx
          show ¬ unlockCheck name (bumpRow name x) = true
          by_cases hxn : (x.name == name) = true
          · have hx0 : x = r0 := List.inj_on_of_nodup_map hnd hx hr0mem
              (by rw [beq_iff_eq.mp hxn, hr0name])
            subst hx0
            rw [hbr0]
            unfold unlockCheck
            simp [hdec]
          · rw [bumpRow_of_ne (by rwa [Bool.not_eq_true] at hxn)]
            unfold unlockCheck
            rw [(by rwa [Bool.not_eq_true] at hxn : (x.name == name) = false)]
            simp
      rw [increment_eq, hins]
      unfold progressUpdate
      by_cases hunlock : r0.target ≤ r0.progress + 1
      · rw [if_pos (by rw [hanyU]; exact decide_eq_true hunlock)]
        unfold findRow
        have hpeU : ((fun r : AchRow => r.name == name) ∘ (unlockRow name now))
            = (fun r : AchRow => r.name == name) :=
          funext (fun x => by simp [Function.comp, unlockRow_name])
        rw [List.find?_map, hpeU, hfind2]
        have hu : unlockRow name now (bumpRow name r0)
            = { r0 with
                 progress := r0.progress + 1,
                 unlocked := true,
                 unlocked_at := some now } := by
          rw [hbr0]
          unfold unlockRow
          rw [if_pos (by simp [hr0name])]
        rw [Option.map_some', hu, decide_eq_true hunlock, if_pos hunlock]
      · rw [if_neg (by rw [hanyU, decide_eq_false hunlock]; exact Bool.false_ne_true)]
        unfold findRow
        rw [hfind2, hbr0, decide_eq_false hunlock, if_neg hunlock]
        rw [← hr0lock]
  · exact ⟨by decide, by decide, by decide, by decide⟩

/-- Witness for C3: incrementing a concrete locked row at progress 1 of
target 3 moves it to progress 2, still locked. -/
theorem increment_achievement_behavior_witness :
    findRow (increment_achievement [⟨"a".data, "d".data, false, 1, 3, none⟩]
        "a".data 3 5) "a".data
      = some ⟨"a".data, "d".data, false, 2, 3, none⟩ :=
  (increment_achievement_behavior.1 [⟨"a".data, "d".data, false, 1, 3, none⟩]
    "a".data 3 5).2.2 ⟨"a".data, "d".data, false, 1, 3, none⟩
    (by decide) (by decide) rfl rfl

/-- C4: `get_recent_context` returns at most `limit` conversations, in
chronological (oldest-first) order; the retained rows together with the
dropped rows are exactly the session's rows, and every dropped row's
timestamp is at most every retained row's timestamp (the returned ones are
the most recent).  On the concrete table with timestamps 1 < 2 < 3 and
`limit = 2` it returns the rows at t=2 and t=3 in that order. -/
theorem recent_context_ordering :
    (∀ (tbl : List ConvRow) (session : Str) (limit : Nat),
      get_recent_context tbl session limit
          = (((List.insertionSort tsDesc
                (tbl.filter (fun r => r.session_name == session))).take
              limit).reverse).map rowToConv
      ∧ (get_recent_context tbl session limit).length ≤ limit
      ∧ List.Pairwise (fun a b => a.timestamp ≤ b.timestamp)
          (get_recent_context tbl session limit)
      ∧ List.Perm (tbl.filter (fun r => r.session_name == session))
          ((List.insertionSort tsDesc
              (tbl.filter (fun r => r.session_name == session))).take limit
            ++ (List.insertionSort tsDesc
              (tbl.filter (fun r => r.session_name == session))).drop limit)
      ∧ (∀ x ∈ (List.insertionSort tsDesc
            (tbl.filter (fun r => r.session_name == session))).take limit,
         ∀ y ∈ (List.insertionSort tsDesc
            (tbl.filter (fun r => r.session_name == session))).drop limit,
          y.timestamp ≤ x.timestamp))
    ∧ get_recent_context
        [⟨1, "s".data, 1, "u1".data, "r1".data, "c".data, "m".data⟩,
         ⟨2, "s".data, 2, "u2".data, "r2".data, "c".data, "m".data⟩,
         ⟨3, "s".data, 3, "u3".data, "r3".data, "c".data, "m".data⟩] "s".data 2
      = [⟨2, "s".data, 2, "u2".data, "r2".data, "c".data, "m".data⟩,
         ⟨3, "s".data, 3, "u3".data, "r3".data, "c".data, "m".data⟩] := by
  constructor
  · intro tbl session limit
    have hsort : List.Sorted tsDesc (List.insertionSort tsDesc
        (tbl.filter (fun r => r.session_name == session))) :=
      List.sorted_insertionSort tsDesc _
    refine ⟨rfl, ?_, ?_, ?_, ?_⟩
    · show ((((List.insertionSort tsDesc
          (tbl.filter (fun r => r.session_name == session))).take
          limit).reverse).map rowToConv).length ≤ limit
      rw [List.length_map, List.length_reverse]
      exact List.length_take_le limit _
    · show List.Pairwise (fun a b => a.timestamp ≤ b.timestamp)
        (((((List.insertionSort tsDesc
          (tbl.filter (fun r => r.session_name == session))).take
          limit).reverse).map rowToConv))
      rw [List.pairwise_map, List.pairwise_reverse]
      have htake : List.Pairwise tsDesc ((List.insertionSort tsDesc
          (tbl.filter (fun r => r.session_name == session))).take limit) :=
        List.Pairwise.sublist (List.take_sublist _ _) hsort
      exact htake.imp (fun h => h)
    · rw [List.take_append_drop]
      exact (List.perm_insertionSort tsDesc _).symm
    · intro x hx y hy
      have hps : List.Pairwise tsDesc ((List.insertionSort tsDesc
          (tbl.filter (fun r => r.session_name == session))).take limit
          ++ (List.insertionSort tsDesc
          (tbl.filter (fun r => r.session_name == session))).drop limit) := by
        rw [List.take_append_drop]
        exact hsort
      exact (List.pairwise_append.mp hps).2.2 x hx y hy
  · decide

/-- Witness for C4: in the concrete three-row table the dropped oldest row's
timestamp (1) is at most a retained row's timestamp (2). -/
theorem recent_context_ordering_witness :
    (⟨1, "s".data, 1, "u1".data, "r1".data, "c".data, "m".data⟩ : ConvRow).timestamp
      ≤ (⟨2, "s".data, 2, "u2".data, "r2".data, "c".data, "m".data⟩ : ConvRow).timestamp :=
  ((recent_context_ordering.1
      [⟨1, "s".data, 1, "u1".data, "r1".data, "c".data, "m".data⟩,
       ⟨2, "s".data, 2, "u2".data, "r2".data, "c".data, "m".data⟩,
       ⟨3, "s".data, 3, "u3".data, "r3".data, "c".data, "m".data⟩] "s".data 2).2.2.2.2
    ⟨2, "s".data, 2, "u2".data, "r2".data, "c".data, "m".data⟩ (by decide)
    ⟨1, "s".data, 1, "u1".data, "r1".data, "c".data, "m".data⟩ (by decide))

/-- C7 counterexample: appending to an existing session does not merely
touch `last_used`: the stored row comes back with `created_at` reset to the
append instant, `description` cleared to NULL and `mood` reset to
`'neutral'`, not with its original `created_at = 1`, description and mood. -/
theorem session_touch_cex :
    (save_conversation [] [⟨"s".data, 1, 1, some "d".data, "happy".data⟩]
        "s".data "u".data "r".data "c".data "m".data 2).2
      = [⟨"s".data, 2, 2, none, "neutral".data⟩]
    ∧ (⟨"s".data, 2, 2, none, "neutral".data⟩ : SessRow)
      ≠ ⟨"s".data, 1, 2, some "d".data, "happy".data⟩ := by
  exact ⟨by decide, by decide⟩

/-- C7 amended: `save_conversation` appends the conversation row, leaves
sessions with other names in place, and **replaces** the named session row
wholesale: `last_used := now` but also `created_at := now`,
`description := NULL`, `mood := 'neutral'` (SQLite `INSERT OR REPLACE`
deletes the old row and inserts a fresh one with column defaults). -/
theorem session_replace_on_append :
    ∀ (convs : List ConvRow) (sessions : List SessRow)
      (session_name user_input ai_response context model : Str) (now : Nat),
      (save_conversation convs sessions session_name user_input ai_response context
          model now).1
        = convs ++ [⟨nextConvId convs, session_name, now, user_input, ai_response,
                     context, model⟩]
      ∧ (save_conversation convs sessions session_name user_input ai_response context
          model now).2
        = sessions.filter (fun r => r.name != session_name)
            ++ [⟨session_name, now, now, none, "neutral".data⟩]
      ∧ (∀ r ∈ sessions, r.name ≠ session_name →
          r ∈ (save_conversation convs sessions session_name user_input ai_response
            context model now).2)
      ∧ ((save_conversation convs sessions session_name user_input ai_response context
          model now).2.find? (fun r => r.name == session_name)
          = some ⟨session_name, now, now, none, "neutral".data⟩) := by
  intro convs sessions session_name user_input ai_response context model now
  refine ⟨rfl, rfl, ?_, ?_⟩
  · intro r hr hrname
    show r ∈ sessions.filter (fun q => q.name != session_name)
        ++ [(⟨session_name, now, now, none, "neutral".data⟩ : SessRow)]
    rw [List.mem_append]
    left
    rw [List.mem_filter]
    exact ⟨hr, bne_iff_ne.mpr hrname⟩
  · show (sessions.filter (fun q => q.name != session_name)
        ++ [(⟨session_name, now, now, none, "neutral".data⟩ : SessRow)]).find?
        (fun q => q.name == session_name)
      = some ⟨session_name, now, now, none, "neutral".data⟩
    rw [List.find?_append]
    have hnone : (sessions.filter (fun q => q.name != session_name)).find?
        (fun q => q.name == session_name) = none := by
      rw [List.find?_eq_none]
      intro x hx
      rw [List.mem_filter] at hx
      have := bne_iff_ne.mp hx.2
      simp only [beq_iff_eq]
      exact this
    rw [hnone]
    simp

/-- Witness for C7 (amended): a session row with a different name survives a
concrete append untouched. -/
theorem session_replace_on_append_witness :
    (⟨"t".data, 1, 1, none, "neutral".data⟩ : SessRow)
      ∈ (save_conversation [] [⟨"t".data, 1, 1, none, "neutral".data⟩]
          "s".data "u".data "r".data "c".data "m".data 2).2 :=
  (session_replace_on_append [] [⟨"t".data, 1, 1, none, "neutral".data⟩]
    "s".data "u".data "r".data "c".data "m".data 2).2.2.1
    ⟨"t".data, 1, 1, none, "neutral".data⟩ (by decide) (by decide)

end Sarek
